import Mathlib

/-!
Verification of the words constraint-matching engine (src/src/lib.rs).

Characters are modelled as Nat codepoints. All inputs the program handles
are ASCII, so the model restricts the alphabetic test (Rust uses the full
Unicode char::is_alphabetic) to the ASCII letter ranges; to_ascii_uppercase
is modelled exactly. Strings are lists of codepoints; the helper str
converts a Lean string literal for concrete test inputs.
-/

namespace Words

instance {ε α : Type} [DecidableEq ε] [DecidableEq α] : DecidableEq (Except ε α)
  | .error e, .error f =>
    if h : e = f then .isTrue (by rw [h]) else .isFalse (by simp [h])
  | .error _, .ok _ => .isFalse (by simp)
  | .ok _, .error _ => .isFalse (by simp)
  | .ok a, .ok b =>
    if h : a = b then .isTrue (by rw [h]) else .isFalse (by simp [h])

/-- Codepoints of a string literal, for concrete inputs in theorems. -/
def str (s : String) : List Nat :=
  s.data.map Char.toNat

/-- Model of Rust char::to_ascii_uppercase: lowercase ASCII letters are
shifted to uppercase, every other codepoint is unchanged. -/
def toAsciiUppercase (n : Nat) : Nat :=
  if 97 ≤ n ∧ n ≤ 122 then n - 32 else n

/-- Model of char::is_alphabetic, restricted to the ASCII letter ranges
(codepoints 65..90 and 97..122). -/
def isAlphabetic (n : Nat) : Bool :=
  decide ((65 ≤ n ∧ n ≤ 90) ∨ (97 ≤ n ∧ n ≤ 122))

/-- lib.rs WordError: the two parse-error kinds. -/
inductive WordError where
  | InvalidWordLength (n : Nat)
  | InvalidCharValue (c : Nat)
deriving DecidableEq

/-- lib.rs Character: a pattern slot, either a normal letter or a wildcard. -/
inductive Character where
  | Normal (c : Nat)
  | Wildcard
deriving DecidableEq

/-- lib.rs impl TryFrom of char for Character: codepoints 42, 95, 63
(star, underscore, question mark) give Wildcard; alphabetic characters give
Normal of the ASCII-uppercased character; anything else is InvalidCharValue. -/
def Character.tryFrom (value : Nat) : Except WordError Character :=
  if value = 42 ∨ value = 95 ∨ value = 63 then .ok .Wildcard
  else if isAlphabetic value then .ok (.Normal (toAsciiUppercase value))
  else .error (.InvalidCharValue value)

/-- lib.rs Word: the sequence of classified slots of a parsed word. -/
structure Word where
  chars : List Character
deriving DecidableEq

/-- The character-classification loop of impl FromStr for Word: classify
each character in order, propagating the first error. -/
def classifyChars : List Nat → Except WordError (List Character)
  | [] => .ok []
  | c :: cs =>
    match Character.tryFrom c with
    | .error e => .error e
    | .ok ch =>
      match classifyChars cs with
      | .error e => .error e
      | .ok rest => .ok (ch :: rest)

/-- lib.rs impl FromStr for Word: strings of length other than 5 fail with
InvalidWordLength of the length; otherwise each character is classified in
order and the first classification error is propagated. -/
def Word.fromStr (s : List Nat) : Except WordError Word :=
  if s.length ≠ 5 then .error (.InvalidWordLength s.length)
  else
    match classifyChars s with
    | .error e => .error e
    | .ok cs => .ok ⟨cs⟩

/-- lib.rs Excluded: the excluded letters, kept as a plain list. -/
structure Excluded where
  chars : List Nat
deriving DecidableEq

/-- lib.rs Included: the required-included letters, kept as a plain list. -/
structure Included where
  chars : List Nat
deriving DecidableEq

/-- lib.rs impl FromStr for Excluded: uppercase every character, never fails. -/
def Excluded.fromStr (s : List Nat) : Excluded :=
  ⟨s.map toAsciiUppercase⟩

/-- lib.rs impl FromStr for Included: uppercase every character, never fails. -/
def Included.fromStr (s : List Nat) : Included :=
  ⟨s.map toAsciiUppercase⟩

/-- lib.rs WordsResult: the chosen pattern and the accumulated matches. -/
structure WordsResult where
  chosen_word : Word
  possible_words : List Word
deriving DecidableEq

/-- The candidate-letter derivation inside is_word_possible: a Normal slot
gives its letter, a Wildcard gives the space placeholder (codepoint 32). -/
def candidateLetter : Character → Nat
  | .Normal c => c
  | .Wildcard => 32

/-- The slot-by-slot loop of is_word_possible over the zipped pairs of
chosen slot and candidate slot: a chosen wildcard is skipped; at a chosen
letter, membership of the candidate letter in included accepts the whole
word at once, membership of the chosen letter in excluded rejects, a slot
mismatch rejects, and otherwise the scan continues. Returns the decision;
the caller appends the candidate exactly when this returns true, matching
the two push sites of the source, which push the same parsed word. -/
def scanPairs (excluded included : List Nat) : List (Character × Character) → Bool
  | [] => true
  | (selfChar, targetChar) :: rest =>
    match selfChar with
    | .Wildcard => scanPairs excluded included rest
    | .Normal selfCharacter =>
      if included.contains (candidateLetter targetChar) then true
      else if excluded.contains selfCharacter then false
      else if selfChar = targetChar then scanPairs excluded included rest
      else false

/-- lib.rs WordsResult::is_word_possible. The source first evaluates
target.parse().unwrap(): a parse failure panics, modelled as none. On a
successful parse the zipped slots are scanned; acceptance pushes the parsed
candidate onto possible_words and returns true, rejection returns false
with the state unchanged. -/
def WordsResult.is_word_possible (self : WordsResult) (target : List Nat)
    (excluded : Excluded) (included : Included) : Option (Bool × WordsResult) :=
  match Word.fromStr target with
  | .error _ => none
  | .ok target_word =>
    if scanPairs excluded.chars included.chars
        (self.chosen_word.chars.zip target_word.chars) then
      some (true, ⟨self.chosen_word, self.possible_words ++ [target_word]⟩)
    else
      some (false, self)

/-- One step of the loop continues to the next position without returning:
either the chosen slot is a wildcard, or the candidate letter is not in
included, the chosen letter is not in excluded, and the slots are equal. -/
def pairContinues (excluded included : List Nat) (p : Character × Character) : Bool :=
  match p with
  | (.Wildcard, _) => true
  | (.Normal c, tc) =>
    !(included.contains (candidateLetter tc)) && !(excluded.contains c) &&
      decide (Character.Normal c = tc)

/-- The slot rendering inside impl Display for WordsResult: a Normal slot
shows its letter, a Wildcard shows the space placeholder. -/
def renderChar : Character → Nat
  | .Normal value => value
  | .Wildcard => 32

/-- Rust Debug rendering of a single char: the character between single
quotes (codepoint 39); exact for letters and the space placeholder, which
need no escaping. -/
def debugChar (c : Nat) : List Nat :=
  [39, c, 39]

/-- Rust Debug rendering of a Vec of chars: the quoted characters,
comma-space separated, between square brackets. -/
def debugVec (cs : List Nat) : List Nat :=
  91 :: List.intercalate [44, 32] (cs.map debugChar) ++ [93]

/-- Decimal digits of a Nat as codepoints, modelling Display for usize. -/
def natChars (n : Nat) : List Nat :=
  (Nat.toDigits 10 n).map Char.toNat

/-- The enumerate loop of impl Display for WordsResult: the line for the
word at zero-based index i shows i+1, a dot and space, the Debug rendering
of the word's characters, a tab and a newline. -/
def displayLines : Nat → List Word → List Nat
  | _, [] => []
  | i, w :: ws =>
    natChars (i + 1) ++ str ". " ++ debugVec (w.chars.map renderChar) ++ [9, 10]
      ++ displayLines (i + 1) ws

/-- lib.rs impl Display for WordsResult: the header line followed by one
numbered line per accepted word, in acceptance order. -/
def WordsResult.display (self : WordsResult) : List Nat :=
  str "List of possible matching words:\n" ++ displayLines 0 self.possible_words

/-- Spec-side helper: does the needle occur contiguously inside the
haystack? Used to state what the rendered report does not contain. -/
def hasSubstring (needle : List Nat) : List Nat → Bool
  | [] => needle.isEmpty
  | c :: rest => needle.isPrefixOf (c :: rest) || hasSubstring needle rest

/-- The parsed all-wildcard pattern, from the input with five stars. -/
def allWildWord : Word :=
  ⟨[.Wildcard, .Wildcard, .Wildcard, .Wildcard, .Wildcard]⟩

/-- The parsed word ABCDE. -/
def abcdeWord : Word :=
  ⟨[.Normal 65, .Normal 66, .Normal 67, .Normal 68, .Normal 69]⟩

/-- The parsed pattern of star then orro. -/
def starOrro : Word :=
  ⟨[.Wildcard, .Normal 79, .Normal 82, .Normal 82, .Normal 79]⟩

/-- The parsed word ZORRO. -/
def zorroWord : Word :=
  ⟨[.Normal 90, .Normal 79, .Normal 82, .Normal 82, .Normal 79]⟩

/-- The parsed word MORRO. -/
def morroWord : Word :=
  ⟨[.Normal 77, .Normal 79, .Normal 82, .Normal 82, .Normal 79]⟩

/-- The parsed word LIGHT. -/
def lightWord : Word :=
  ⟨[.Normal 76, .Normal 73, .Normal 71, .Normal 72, .Normal 84]⟩

/-- The parsed word FOCUS. -/
def focusWord : Word :=
  ⟨[.Normal 70, .Normal 79, .Normal 67, .Normal 85, .Normal 83]⟩

/-- The parsed word WHALE. -/
def whaleWord : Word :=
  ⟨[.Normal 87, .Normal 72, .Normal 65, .Normal 76, .Normal 69]⟩

/-- The parsed word XXXXX. -/
def xxxxxWord : Word :=
  ⟨[.Normal 88, .Normal 88, .Normal 88, .Normal 88, .Normal 88]⟩

/-- The parsed candidate star then BCDE. -/
def wBcdeWord : Word :=
  ⟨[.Wildcard, .Normal 66, .Normal 67, .Normal 68, .Normal 69]⟩

/-- The parsed candidate A, underscore, CDE. -/
def aWcdeWord : Word :=
  ⟨[.Normal 65, .Wildcard, .Normal 67, .Normal 68, .Normal 69]⟩

theorem tryFrom_error_shape {c : Nat} {e : WordError}
    (h : Character.tryFrom c = .error e) : e = .InvalidCharValue c := by
  unfold Character.tryFrom at h
  split at h
  · exact absurd h (by simp)
  · split at h
    · exact absurd h (by simp)
    · exact (Except.error.injEq _ _).mp h.symm

theorem classifyChars_ok_length {s : List Nat} {cs : List Character}
    (h : classifyChars s = .ok cs) : cs.length = s.length := by
  induction s generalizing cs with
  | nil =>
    simp only [classifyChars, Except.ok.injEq] at h
    simp [← h]
  | cons c rest ih =>
    simp only [classifyChars] at h
    cases htf : Character.tryFrom c with
    | error e => rw [htf] at h; exact absurd h (by simp)
    | ok ch =>
      rw [htf] at h
      cases hrec : classifyChars rest with
      | error e => rw [hrec] at h; exact absurd h (by simp)
      | ok tl =>
        rw [hrec] at h
        simp only [Except.ok.injEq] at h
        simp [← h, ih hrec]

theorem classifyChars_error_shape {s : List Nat} {e : WordError}
    (h : classifyChars s = .error e) : ∃ c, e = .InvalidCharValue c := by
  induction s with
  | nil => exact absurd h (by simp [classifyChars])
  | cons c rest ih =>
    simp only [classifyChars] at h
    cases htf : Character.tryFrom c with
    | error e₂ =>
      rw [htf] at h
      simp only [Except.error.injEq] at h
      exact ⟨c, by rw [← h]; exact tryFrom_error_shape htf⟩
    | ok ch =>
      rw [htf] at h
      cases hrec : classifyChars rest with
      | error e₂ =>
        rw [hrec] at h
        simp only [Except.error.injEq] at h
        exact ih (h ▸ hrec)
      | ok tl => rw [hrec] at h; exact absurd h (by simp)

theorem fromStr_ok_length {s : List Nat} {w : Word}
    (h : Word.fromStr s = .ok w) : w.chars.length = 5 := by
  unfold Word.fromStr at h
  split at h
  · exact absurd h (by simp)
  · rename_i hlen
    cases hc : classifyChars s with
    | error e => rw [hc] at h; exact absurd h (by simp)
    | ok cs =>
      rw [hc] at h
      simp only [Except.ok.injEq] at h
      rw [← h]
      simpa [classifyChars_ok_length hc] using hlen

theorem scan_skip (e i : List Nat) (tc : Character) (rest : List (Character × Character)) :
    scanPairs e i ((Character.Wildcard, tc) :: rest) = scanPairs e i rest := rfl

theorem scan_accept {i : List Nat} (e : List Nat) {tc : Character} {c : Nat}
    (rest : List (Character × Character))
    (h : i.contains (candidateLetter tc) = true) :
    scanPairs e i ((Character.Normal c, tc) :: rest) = true := by
  have h' : candidateLetter tc ∈ i := by simpa using h
  simp [scanPairs, h']

theorem scan_reject_excluded {e i : List Nat} {tc : Character} {c : Nat}
    (rest : List (Character × Character))
    (hi : i.contains (candidateLetter tc) = false)
    (he : e.contains c = true) :
    scanPairs e i ((Character.Normal c, tc) :: rest) = false := by
  have hi' : candidateLetter tc ∉ i := by simpa using hi
  have he' : c ∈ e := by simpa using he
  simp [scanPairs, hi', he']

theorem scan_reject_mismatch {e i : List Nat} {tc : Character} {c : Nat}
    (rest : List (Character × Character))
    (hi : i.contains (candidateLetter tc) = false)
    (he : e.contains c = false)
    (hne : Character.Normal c ≠ tc) :
    scanPairs e i ((Character.Normal c, tc) :: rest) = false := by
  have hi' : candidateLetter tc ∉ i := by simpa using hi
  have he' : c ∉ e := by simpa using he
  simp [scanPairs, hi', he', hne]

theorem scan_continue {e i : List Nat} {p : Character × Character}
    (rest : List (Character × Character))
    (h : pairContinues e i p = true) :
    scanPairs e i (p :: rest) = scanPairs e i rest := by
  obtain ⟨sc, tc⟩ := p
  cases sc with
  | Wildcard => rfl
  | Normal c =>
    simp only [pairContinues, Bool.and_eq_true, Bool.not_eq_true',
      decide_eq_true_eq] at h
    obtain ⟨⟨hi, he⟩, heq⟩ := h
    have hi' : candidateLetter tc ∉ i := by simpa using hi
    have he' : c ∉ e := by simpa using he
    simp [scanPairs, hi', he', heq]

theorem scan_append_continues {e i : List Nat} {pre : List (Character × Character)}
    (l : List (Character × Character))
    (h : ∀ p ∈ pre, pairContinues e i p = true) :
    scanPairs e i (pre ++ l) = scanPairs e i l := by
  induction pre with
  | nil => rfl
  | cons p ps ih =>
    rw [List.cons_append, scan_continue _ (h p (by simp))]
    exact ih fun q hq => h q (by simp [hq])

theorem iwp_of_scan_true {r : WordsResult} {s : List Nat} {e : Excluded}
    {i : Included} {tw : Word}
    (hp : Word.fromStr s = .ok tw)
    (hs : scanPairs e.chars i.chars (r.chosen_word.chars.zip tw.chars) = true) :
    r.is_word_possible s e i =
      some (true, ⟨r.chosen_word, r.possible_words ++ [tw]⟩) := by
  simp [WordsResult.is_word_possible, hp, hs]

theorem iwp_of_scan_false {r : WordsResult} {s : List Nat} {e : Excluded}
    {i : Included} {tw : Word}
    (hp : Word.fromStr s = .ok tw)
    (hs : scanPairs e.chars i.chars (r.chosen_word.chars.zip tw.chars) = false) :
    r.is_word_possible s e i = some (false, r) := by
  simp [WordsResult.is_word_possible, hp, hs]

theorem toAsciiUppercase_eq_32 {n : Nat} (h : toAsciiUppercase n = 32) : n = 32 := by
  unfold toAsciiUppercase at h
  split at h <;> omega

theorem mapUpper_contains_32 {l : List Nat} (h : l.contains 32 = false) :
    (l.map toAsciiUppercase).contains 32 = false := by
  have h' : 32 ∉ l := by simpa using h
  simp only [List.contains, List.elem_eq_mem, decide_eq_false_iff_not,
    List.mem_map, not_exists, not_and]
  intro x hx hup
  exact h' (toAsciiUppercase_eq_32 hup ▸ hx)

theorem displayLines_enumFrom (i : Nat) (ws : List Word) :
    displayLines i ws =
      ((ws.enumFrom i).map fun p =>
        natChars (p.1 + 1) ++ str ". " ++ debugVec (p.2.chars.map renderChar)
          ++ [9, 10]).flatten := by
  induction ws generalizing i with
  | nil => rfl
  | cons w ws ih => simp [displayLines, List.enumFrom, ih (i + 1)]

/-- Claim C1: when the left-to-right scan of a parsed candidate against the
chosen pattern reaches a position whose chosen slot is a concrete letter,
every earlier compared position having passed through, and the candidate
letter at that position is in the included set, is_word_possible returns
true and appends the parsed candidate, regardless of the remaining
positions and of the exclusion and equality checks at this position. -/
theorem c1_inclusion_short_circuit
    (r : WordsResult) (s : List Nat) (e : Excluded) (inc : Included) (tw : Word)
    (pre rest : List (Character × Character)) (c : Nat) (tc : Character)
    (hp : Word.fromStr s = .ok tw)
    (hsplit : r.chosen_word.chars.zip tw.chars = pre ++ (Character.Normal c, tc) :: rest)
    (hpre : ∀ p ∈ pre, pairContinues e.chars inc.chars p = true)
    (hmem : inc.chars.contains (candidateLetter tc) = true) :
    r.is_word_possible s e inc =
      some (true, ⟨r.chosen_word, r.possible_words ++ [tw]⟩) := by
  apply iwp_of_scan_true hp
  rw [hsplit, scan_append_continues _ hpre]
  exact scan_accept _ _ hmem

/-- Claim C1 witness: chosen ABCDE, included containing X, candidate XXXXX
is accepted at position zero although X differs from A. -/
theorem c1_witness :
    WordsResult.is_word_possible ⟨abcdeWord, []⟩ (str "xxxxx") ⟨[]⟩ ⟨[88]⟩ =
      some (true, ⟨abcdeWord, [xxxxxWord]⟩) :=
  c1_inclusion_short_circuit ⟨abcdeWord, []⟩ (str "xxxxx") ⟨[]⟩ ⟨[88]⟩ xxxxxWord
    []
    [(.Normal 66, .Normal 88), (.Normal 67, .Normal 88),
      (.Normal 68, .Normal 88), (.Normal 69, .Normal 88)]
    65 (.Normal 88) (by decide) (by decide) (by decide) (by decide)

/-- Claim C2 counterexample: with the all-wildcard chosen pattern, excluded
empty and included containing I, the candidate focus is accepted and
appended, where the claim says it returns false. -/
theorem c2_counterexample :
    WordsResult.is_word_possible ⟨allWildWord, []⟩ (str "focus") ⟨[]⟩ ⟨[73]⟩ =
      some (true, ⟨allWildWord, [focusWord]⟩) := by
  decide

/-- Claim C2 amended: with the all-wildcard chosen pattern, excluded empty
and included containing I, both light and focus return true: every position
is skipped at the chosen wildcard, so the loop falls through and accepts
every parseable candidate; the inclusion override never fires. -/
theorem c2_all_wildcard_accepts :
    WordsResult.is_word_possible ⟨allWildWord, []⟩ (str "light") ⟨[]⟩ ⟨[73]⟩ =
        some (true, ⟨allWildWord, [lightWord]⟩) ∧
    WordsResult.is_word_possible ⟨allWildWord, []⟩ (str "focus") ⟨[]⟩ ⟨[73]⟩ =
        some (true, ⟨allWildWord, [focusWord]⟩) := by
  decide

/-- Claim C3: reaching a position whose chosen slot is a concrete letter in
the excluded set, with no same-position inclusion override and every
earlier position passed through, returns false without appending; a chosen
wildcard position never rejects; and the star-orro example accepts both
zorro and morro, ending with those two uppercase words in order. -/
theorem c3_exclusion_at_concrete_only :
    (∀ (r : WordsResult) (s : List Nat) (e : Excluded) (inc : Included) (tw : Word)
      (pre rest : List (Character × Character)) (c : Nat) (tc : Character),
      Word.fromStr s = .ok tw →
      r.chosen_word.chars.zip tw.chars = pre ++ (Character.Normal c, tc) :: rest →
      (∀ p ∈ pre, pairContinues e.chars inc.chars p = true) →
      inc.chars.contains (candidateLetter tc) = false →
      e.chars.contains c = true →
      r.is_word_possible s e inc = some (false, r)) ∧
    (∀ (e i : List Nat) (tc : Character) (rest : List (Character × Character)),
      scanPairs e i ((Character.Wildcard, tc) :: rest) = scanPairs e i rest) ∧
    (WordsResult.is_word_possible ⟨starOrro, []⟩ (str "zorro")
        (Excluded.fromStr (str "m")) ⟨[]⟩ = some (true, ⟨starOrro, [zorroWord]⟩) ∧
      WordsResult.is_word_possible ⟨starOrro, [zorroWord]⟩ (str "morro")
        (Excluded.fromStr (str "m")) ⟨[]⟩ =
          some (true, ⟨starOrro, [zorroWord, morroWord]⟩)) := by
  refine ⟨?_, fun e i tc rest => rfl, by decide⟩
  intro r s e inc tw pre rest c tc hp hsplit hpre hi he
  apply iwp_of_scan_false hp
  rw [hsplit, scan_append_continues _ hpre]
  exact scan_reject_excluded _ hi he

/-- Claim C3 witness: chosen WHALE with W excluded rejects the candidate
whale at position zero without appending. -/
theorem c3_witness :
    WordsResult.is_word_possible ⟨whaleWord, []⟩ (str "whale") ⟨[87]⟩ ⟨[]⟩ =
      some (false, ⟨whaleWord, []⟩) :=
  c3_exclusion_at_concrete_only.1 ⟨whaleWord, []⟩ (str "whale") ⟨[87]⟩ ⟨[]⟩ whaleWord
    []
    [(.Normal 72, .Normal 72), (.Normal 65, .Normal 65),
      (.Normal 76, .Normal 76), (.Normal 69, .Normal 69)]
    87 (.Normal 87) (by decide) (by decide) (by decide) (by decide) (by decide)

/-- Claim C4: parsing fails with InvalidWordLength of the input length
exactly when the length is not 5, and every successfully parsed word has
exactly 5 slots. -/
theorem c4_five_slot_invariant (s : List Nat) :
    (s.length ≠ 5 → Word.fromStr s = .error (.InvalidWordLength s.length)) ∧
    (∀ n, Word.fromStr s = .error (.InvalidWordLength n) →
      s.length ≠ 5 ∧ n = s.length) ∧
    (∀ w, Word.fromStr s = .ok w → w.chars.length = 5) := by
  refine ⟨fun h => by simp [Word.fromStr, h], fun n h => ?_,
    fun w h => fromStr_ok_length h⟩
  by_cases hlen : s.length = 5
  · exfalso
    simp only [Word.fromStr, hlen] at h
    rw [if_neg (by simp)] at h
    cases hc : classifyChars s with
    | error e =>
      rw [hc] at h
      simp only [Except.error.injEq] at h
      obtain ⟨c, hshape⟩ := classifyChars_error_shape hc
      rw [hshape] at h
      exact WordError.noConfusion h
    | ok cs => rw [hc] at h; exact Except.noConfusion h
  · have hfix : Word.fromStr s = .error (.InvalidWordLength s.length) := by
      simp [Word.fromStr, hlen]
    rw [hfix] at h
    simp only [Except.error.injEq, WordError.InvalidWordLength.injEq] at h
    exact ⟨hlen, h.symm⟩

/-- Claim C4 witness: a length-6 input fails with InvalidWordLength 6, and
the successfully parsed ABCDE has 5 slots. -/
theorem c4_witness :
    Word.fromStr (str "abcdef") = .error (.InvalidWordLength 6) ∧
    abcdeWord.chars.length = 5 :=
  ⟨(c4_five_slot_invariant (str "abcdef")).1 (by decide),
    (c4_five_slot_invariant (str "abcde")).2.2 abcdeWord (by decide)⟩

/-- Claim C5: the candidate ab has a parse error, InvalidWordLength 2, yet
is_word_possible unwraps the parse result and panics (modelled as none)
instead of returning that error to its caller. -/
theorem c5_unwrap_panics :
    Word.fromStr (str "ab") = .error (.InvalidWordLength 2) ∧
    WordsResult.is_word_possible ⟨abcdeWord, []⟩ (str "ab") ⟨[]⟩ ⟨[]⟩ = none := by
  decide

/-- Claim C6: a call on a parseable candidate either returns true with
exactly the parsed candidate appended at the end, and a repeated call on
the updated accumulator appends a second identical entry, or returns false
with the accumulator unchanged. -/
theorem c6_append_iff_accept (r : WordsResult) (s : List Nat) (e : Excluded)
    (i : Included) (tw : Word) (hp : Word.fromStr s = .ok tw) :
    (r.is_word_possible s e i =
        some (true, ⟨r.chosen_word, r.possible_words ++ [tw]⟩) ∧
      WordsResult.is_word_possible ⟨r.chosen_word, r.possible_words ++ [tw]⟩ s e i =
        some (true, ⟨r.chosen_word, r.possible_words ++ [tw] ++ [tw]⟩)) ∨
    r.is_word_possible s e i = some (false, r) := by
  cases hs : scanPairs e.chars i.chars (r.chosen_word.chars.zip tw.chars) with
  | false => exact Or.inr (iwp_of_scan_false hp hs)
  | true => exact Or.inl ⟨iwp_of_scan_true hp hs, iwp_of_scan_true hp hs⟩

/-- Claim C6 witness: the exact-match call on WHALE lands in the accepting
branch of the dichotomy. -/
theorem c6_witness :
    (WordsResult.is_word_possible ⟨whaleWord, []⟩ (str "whale") ⟨[]⟩ ⟨[]⟩ =
        some (true, ⟨whaleWord, [] ++ [whaleWord]⟩) ∧
      WordsResult.is_word_possible ⟨whaleWord, [] ++ [whaleWord]⟩ (str "whale") ⟨[]⟩ ⟨[]⟩ =
        some (true, ⟨whaleWord, [] ++ [whaleWord] ++ [whaleWord]⟩)) ∨
    WordsResult.is_word_possible ⟨whaleWord, []⟩ (str "whale") ⟨[]⟩ ⟨[]⟩ =
      some (false, ⟨whaleWord, []⟩) :=
  c6_append_iff_accept ⟨whaleWord, []⟩ (str "whale") ⟨[]⟩ ⟨[]⟩ whaleWord (by decide)

/-- Claim C7 counterexample: the report for an accumulator holding the
accepted word ZORRO nowhere contains the five letters ZORRO contiguously;
the word is rendered in Rust Debug list notation instead. -/
theorem c7_counterexample :
    hasSubstring (str "ZORRO") (WordsResult.display ⟨starOrro, [zorroWord]⟩) = false ∧
    WordsResult.display ⟨starOrro, [zorroWord]⟩ =
      str "List of possible matching words:\n" ++ natChars 1 ++ str ". " ++
        debugVec (zorroWord.chars.map renderChar) ++ [9, 10] := by
  decide

/-- Claim C7 amended: the report is the header line followed by, for the
word at zero-based index i in acceptance order, a line of the decimal of
i plus one, a dot and space, the Debug list rendering of the word's letter
characters, a tab and a newline. -/
theorem c7_render_format (cw : Word) (ws : List Word) :
    WordsResult.display ⟨cw, ws⟩ =
      str "List of possible matching words:\n" ++
        (ws.enum.map fun p =>
          natChars (p.1 + 1) ++ str ". " ++ debugVec (p.2.chars.map renderChar)
            ++ [9, 10]).flatten := by
  unfold WordsResult.display
  rw [displayLines_enumFrom]
  rfl

/-- Claim C8 counterexample: the included set parsed from a single space
contains the wildcard placeholder, and a candidate wildcard then triggers
the included-set short-circuit: star-BCDE is accepted against ABCDE even
though position zero mismatches. -/
theorem c8_counterexample :
    (Included.fromStr (str " ")).chars.contains (candidateLetter .Wildcard) = true ∧
    WordsResult.is_word_possible ⟨abcdeWord, []⟩ (str "*bcde")
        (Excluded.fromStr (str "")) (Included.fromStr (str " ")) =
      some (true, ⟨abcdeWord, [wBcdeWord]⟩) := by
  decide

/-- Claim C8 amended: the placeholder letter of a candidate wildcard, the
space codepoint, never equals an uppercased alphabetic letter, and for
constraint sets parsed from strings not containing a space it is a member
of neither set, so at a concrete chosen slot a candidate wildcard never
triggers the included-set short-circuit and the scan rejects there. -/
theorem c8_placeholder_neutrality :
    (∀ c : Nat, isAlphabetic c = true →
      candidateLetter .Wildcard ≠ toAsciiUppercase c) ∧
    (∀ es : List Nat, es.contains 32 = false →
      (Excluded.fromStr es).chars.contains (candidateLetter .Wildcard) = false) ∧
    (∀ ins : List Nat, ins.contains 32 = false →
      (Included.fromStr ins).chars.contains (candidateLetter .Wildcard) = false) ∧
    (∀ (inc e : List Nat) (c : Nat) (rest : List (Character × Character)),
      inc.contains 32 = false →
      scanPairs e inc ((Character.Normal c, Character.Wildcard) :: rest) = false) := by
  refine ⟨fun c hc heq => ?_, fun es hes => mapUpper_contains_32 hes,
    fun ins hins => mapUpper_contains_32 hins, fun inc e c rest hi => ?_⟩
  · simp only [isAlphabetic, decide_eq_true_eq] at hc
    simp only [candidateLetter, toAsciiUppercase] at heq
    split at heq <;> omega
  · cases he : e.contains c with
    | true => exact scan_reject_excluded _ hi he
    | false => exact scan_reject_mismatch _ hi he (by simp)

/-- Claim C8 witness: the placeholder differs from uppercased a, is absent
from sets parsed from abc and xyz, and the scan rejects a candidate
wildcard at a concrete chosen slot. -/
theorem c8_witness :
    candidateLetter .Wildcard ≠ toAsciiUppercase 97 ∧
    (Excluded.fromStr (str "abc")).chars.contains (candidateLetter .Wildcard) = false ∧
    (Included.fromStr (str "xyz")).chars.contains (candidateLetter .Wildcard) = false ∧
    scanPairs [65] [66] [(Character.Normal 65, Character.Wildcard)] = false :=
  ⟨c8_placeholder_neutrality.1 97 (by decide),
    c8_placeholder_neutrality.2.1 (str "abc") (by decide),
    c8_placeholder_neutrality.2.2.1 (str "xyz") (by decide),
    c8_placeholder_neutrality.2.2.2 [66] [65] 65 [] (by decide)⟩

/-- Claim C9: classification maps the three wildcard markers to Wildcard,
any other alphabetic character to Normal of its ASCII uppercase, and
everything else to the InvalidCharValue error. -/
theorem c9_classification (c : Nat) :
    ((c = 42 ∨ c = 95 ∨ c = 63) → Character.tryFrom c = .ok .Wildcard) ∧
    (¬(c = 42 ∨ c = 95 ∨ c = 63) → isAlphabetic c = true →
      Character.tryFrom c = .ok (.Normal (toAsciiUppercase c))) ∧
    (¬(c = 42 ∨ c = 95 ∨ c = 63) → isAlphabetic c = false →
      Character.tryFrom c = .error (.InvalidCharValue c)) := by
  refine ⟨fun h => by simp [Character.tryFrom, h], fun h ha => ?_, fun h ha => ?_⟩
  · simp [Character.tryFrom, h, ha]
  · simp [Character.tryFrom, h, ha]

/-- Claim C9 witness: the star marker, the letter a and the hyphen land in
the three classification cases. -/
theorem c9_witness :
    Character.tryFrom 42 = .ok .Wildcard ∧
    Character.tryFrom 97 = .ok (.Normal (toAsciiUppercase 97)) ∧
    Character.tryFrom 45 = .error (.InvalidCharValue 45) :=
  ⟨(c9_classification 42).1 (by decide),
    (c9_classification 97).2.1 (by decide) (by decide),
    (c9_classification 45).2.2 (by decide) (by decide)⟩

/-- Claim C10: candidates may contain wildcard markers: such a string
parses; a candidate wildcard under a chosen wildcard is skipped; a
candidate wildcard at a concrete chosen slot, with no inclusion override
and the chosen letter not excluded, rejects the word; and the all-wildcard
candidate is accepted and appended against the all-wildcard pattern. -/
theorem c10_candidate_wildcards :
    Word.fromStr (str "*_?ab") =
        .ok ⟨[.Wildcard, .Wildcard, .Wildcard, .Normal 65, .Normal 66]⟩ ∧
    (∀ (e i : List Nat) (rest : List (Character × Character)),
      scanPairs e i ((Character.Wildcard, Character.Wildcard) :: rest) =
        scanPairs e i rest) ∧
    (∀ (r : WordsResult) (s : List Nat) (e : Excluded) (inc : Included) (tw : Word)
      (pre rest : List (Character × Character)) (c : Nat),
      Word.fromStr s = .ok tw →
      r.chosen_word.chars.zip tw.chars =
        pre ++ (Character.Normal c, Character.Wildcard) :: rest →
      (∀ p ∈ pre, pairContinues e.chars inc.chars p = true) →
      inc.chars.contains 32 = false →
      e.chars.contains c = false →
      r.is_word_possible s e inc = some (false, r)) ∧
    WordsResult.is_word_possible ⟨allWildWord, []⟩ (str "*****") ⟨[]⟩ ⟨[]⟩ =
      some (true, ⟨allWildWord, [allWildWord]⟩) := by
  refine ⟨by decide, fun e i rest => rfl, ?_, by decide⟩
  intro r s e inc tw pre rest c hp hsplit hpre hi he
  apply iwp_of_scan_false hp
  rw [hsplit, scan_append_continues _ hpre]
  exact scan_reject_mismatch _ hi he (by simp)

/-- Claim C10 witness: the candidate with an underscore at position one is
rejected against ABCDE with empty constraint sets. -/
theorem c10_witness :
    WordsResult.is_word_possible ⟨abcdeWord, []⟩ (str "a_cde") ⟨[]⟩ ⟨[]⟩ =
      some (false, ⟨abcdeWord, []⟩) :=
  c10_candidate_wildcards.2.2.1 ⟨abcdeWord, []⟩ (str "a_cde") ⟨[]⟩ ⟨[]⟩ aWcdeWord
    [(.Normal 65, .Normal 65)]
    [(.Normal 67, .Normal 67), (.Normal 68, .Normal 68), (.Normal 69, .Normal 69)]
    66 (by decide) (by decide) (by decide) (by decide) (by decide)

end Words
